import Mathlib

/-!
Verification of the lending core of the Library Management System
(`src/project2.cpp`): the `Book` and `User` records, the operations
`User::borrowBook`, `User::returnBook`, `User::payFines`, and the
inventory operations `Librarian::addBook` / `Librarian::removeBook`.

Embedding conventions:
* `time_t` values are modelled as `Nat` (seconds); the sentinel value `0`
  of `Book::dueDate` means "no due date", exactly as in the source.
* `double` money values (`User::fines`, payment amounts) are modelled as `ℚ`.
* A C++ `Book*` pointer is modelled as a stable reference number `Nat`;
  pointer equality becomes equality of reference numbers.
* Each operation that reads the wall clock (`time(0)`) takes the single
  value it read as an explicit argument `now`.
* The confirmation / error messages printed by the source are modelled by a
  `Result` value (`ok`, `bookUnavailable`, `notBorrowedByUser`,
  `overpaymentRejected`); the mutation behaviour is returned functionally.
-/

namespace LibrarySystem

/-- The class `Book` from `src/project2.cpp` lines 32-62: title, author, ISBN,
availability flag and due date (`time_t`, `0` when not checked out). -/
structure Book where
  title : String
  author : String
  ISBN : String
  isAvailable : Bool
  dueDate : Nat
deriving Repr, DecidableEq

/-- The constructor `Book::Book` (line 42-43): a new book is available with `dueDate = 0`. -/
def Book.make (title author ISBN : String) : Book :=
  { title := title, author := author, ISBN := ISBN,
    isAvailable := true, dueDate := 0 }

/-- The loan period hard-coded at line 94 of the source: 5 seconds. -/
def LOAN_PERIOD : Nat := 5

/-- The fine rate hard-coded at line 112 of the source: $2 per second. -/
def FINE_RATE : ℚ := 2

/-- Outcome reported by an operation (the printed message in the source). -/
inductive Result where
  | ok
  | bookUnavailable
  | notBorrowedByUser
  | overpaymentRejected
deriving Repr, DecidableEq

/-- The class `User` from `src/project2.cpp` lines 68-139: name, user ID, the list of
borrowed book references (`std::vector<Book*>`) and the fine balance. -/
structure User where
  name : String
  userID : String
  borrowedBooks : List Nat
  fines : ℚ
deriving Repr, DecidableEq

/-- The constructor `User::User` (line 77-78): a fresh user has no borrowed books, no fines. -/
def User.make (name userID : String) : User :=
  { name := name, userID := userID, borrowedBooks := [], fines := 0 }

/-- The method `User::borrowBook` (lines 87-99): if the book is available, append it to
`borrowedBooks`, clear availability and stamp `dueDate = now + 5`;
otherwise do nothing and report that the book is unavailable. -/
def User.borrowBook (u : User) (ref : Nat) (b : Book) (now : Nat) :
    User × Book × Result :=
  if b.isAvailable then
    ({ u with borrowedBooks := u.borrowedBooks ++ [ref] },
     { b with isAvailable := false, dueDate := now + LOAN_PERIOD },
     Result.ok)
  else
    (u, b, Result.bookUnavailable)

/-- The fine added by `User::returnBook` (lines 109-114): `$2` per second of
overdue time, and nothing at all unless `now > dueDate`. -/
def overdueFine (now due : Nat) : ℚ :=
  if due < now then ((now - due : Nat) : ℚ) * FINE_RATE else 0

/-- The method `User::returnBook` (lines 102-121): if the book (by pointer identity) is
in `borrowedBooks`, erase its first occurrence, set it available, add the
overdue fine computed from the still-stored due date, then clear the due
date to `0`; otherwise do nothing and report it was not borrowed. -/
def User.returnBook (u : User) (ref : Nat) (b : Book) (now : Nat) :
    User × Book × Result :=
  if ref ∈ u.borrowedBooks then
    ({ u with borrowedBooks := u.borrowedBooks.erase ref,
              fines := u.fines + overdueFine now b.dueDate },
     { b with isAvailable := true, dueDate := 0 },
     Result.ok)
  else
    (u, b, Result.notBorrowedByUser)

/-- The method `User::payFines` (lines 124-131): subtract `amount` when
`amount <= fines`, otherwise reject the payment and change nothing. -/
def User.payFines (u : User) (amount : ℚ) : User × Result :=
  if amount ≤ u.fines then
    ({ u with fines := u.fines - amount }, Result.ok)
  else
    (u, Result.overpaymentRejected)

/-- The method `Librarian::addBook` (lines 156-160): unconditionally append a fresh
book to the inventory (`emplace_back`); no duplicate check. -/
def Librarian.addBook (inventory : List Book)
    (title author ISBN : String) : List Book :=
  inventory ++ [Book.make title author ISBN]

/-- The method `Librarian::removeBook` (lines 163-173): erase the first book whose ISBN
matches, if any. -/
def Librarian.removeBook : List Book → String → List Book
  | [], _ => []
  | b :: rest, isbn =>
      if b.ISBN = isbn then rest else b :: Librarian.removeBook rest isbn

/-- The whole-system state of `main` (lines 199-383): the inventory (each
book paired with its stable reference number), the registered users, and a
counter supplying fresh reference numbers. -/
structure LibState where
  nextRef : Nat
  books : List (Nat × Book)
  users : List User
deriving Repr, DecidableEq

/-- The initial state of `main`: empty inventory, no users. -/
def LibState.init : LibState := { nextRef := 0, books := [], users := [] }

/-- One menu-driven operation of `main` touching the core state. The clock
value read during a borrow or return is carried as the field `now`. -/
inductive Op where
  | addBook (title author ISBN : String)
  | registerUser (name userID : String)
  | borrow (ui bi now : Nat)
  | ret (ui bi now : Nat)
  | payFine (ui : Nat) (amount : ℚ)

/-- Apply one operation to the system state, exactly as the corresponding
`case` of `main` does: out-of-range indices leave the state unchanged
(rejected by the shell before the core runs). -/
def applyOp (s : LibState) : Op → LibState
  | Op.addBook t a i =>
      { s with books := s.books ++ [(s.nextRef, Book.make t a i)],
               nextRef := s.nextRef + 1 }
  | Op.registerUser n id =>
      { s with users := s.users ++ [User.make n id] }
  | Op.borrow ui bi now =>
      match s.users[ui]?, s.books[bi]? with
      | some u, some rb =>
          let res := u.borrowBook rb.1 rb.2 now
          { s with users := s.users.set ui res.1,
                   books := s.books.set bi (rb.1, res.2.1) }
      | _, _ => s
  | Op.ret ui bi now =>
      match s.users[ui]?, s.books[bi]? with
      | some u, some rb =>
          let res := u.returnBook rb.1 rb.2 now
          { s with users := s.users.set ui res.1,
                   books := s.books.set bi (rb.1, res.2.1) }
      | _, _ => s
  | Op.payFine ui amount =>
      match s.users[ui]? with
      | some u => { s with users := s.users.set ui (u.payFines amount).1 }
      | none => s

/-- Run a sequence of operations from a state. -/
def run (s : LibState) (ops : List Op) : LibState := ops.foldl applyOp s

/-- Inventory-only operation of `Librarian` (claim about `addBook` /
`removeBook` sequences on the raw `std::vector<Book>`). -/
inductive InvOp where
  | add (title author ISBN : String)
  | remove (ISBN : String)

/-- Apply one `Librarian` inventory operation. -/
def applyInvOp (inv : List Book) : InvOp → List Book
  | InvOp.add t a i => Librarian.addBook inv t a i
  | InvOp.remove i => Librarian.removeBook inv i

/-- Run a sequence of inventory operations. -/
def runInv (inv : List Book) (ops : List InvOp) : List Book :=
  ops.foldl applyInvOp inv

/-- An `add` operation is fresh when its ISBN is not already present. -/
def opFresh (inv : List Book) : InvOp → Prop
  | InvOp.add _ _ i => i ∉ inv.map Book.ISBN
  | InvOp.remove _ => True

/-- Every `add` in the sequence uses an ISBN absent from the inventory at
the moment it runs. -/
def FreshAdds : List Book → List InvOp → Prop
  | _, [] => True
  | inv, op :: rest => opFresh inv op ∧ FreshAdds (applyInvOp inv op) rest

instance (inv : List Book) (op : InvOp) : Decidable (opFresh inv op) := by
  cases op <;> simp only [opFresh] <;> infer_instance

instance : ∀ (inv : List Book) (ops : List InvOp), Decidable (FreshAdds inv ops)
  | _, [] => by simp only [FreshAdds]; infer_instance
  | inv, op :: rest =>
      have : Decidable (FreshAdds (applyInvOp inv op) rest) :=
        instDecidableFreshAdds _ _
      by simp only [FreshAdds]; infer_instance

/-! ## Helper lemmas -/

/-- Writing back the element already stored at an index is a no-op. -/
theorem set_getElem_eq_self {α : Type} :
    ∀ (l : List α) (i : Nat) (x : α), l[i]? = some x → l.set i x = l
  | [], _, _, h => by simp at h
  | a :: l, 0, x, h => by
      simp only [List.getElem?_cons_zero, Option.some.injEq] at h
      simp [h]
  | a :: l, i + 1, x, h => by
      simp only [List.getElem?_cons_succ] at h
      simp [set_getElem_eq_self l i x h]

/-- The overdue fine is the truncated difference `now - due` times the rate,
in every case (the `if` of the source coincides with `Nat` subtraction). -/
theorem overdueFine_eq (now due : Nat) :
    overdueFine now due = ((now - due : Nat) : ℚ) * FINE_RATE := by
  unfold overdueFine
  split
  · rfl
  · next h =>
      have : now - due = 0 := Nat.sub_eq_zero_of_le (Nat.le_of_not_lt h)
      simp [this]

/-- The overdue fine is never negative. -/
theorem overdueFine_nonneg (now due : Nat) : 0 ≤ overdueFine now due := by
  rw [overdueFine_eq]
  have h1 : (0 : ℚ) ≤ ((now - due : Nat) : ℚ) := Nat.cast_nonneg _
  have h2 : (0 : ℚ) ≤ FINE_RATE := by norm_num [FINE_RATE]
  exact mul_nonneg h1 h2

/-- The function `removeBook` yields a sublist of the inventory. -/
theorem removeBook_sublist (inv : List Book) (isbn : String) :
    (Librarian.removeBook inv isbn).Sublist inv := by
  induction inv with
  | nil => simp [Librarian.removeBook]
  | cons b rest ih =>
      unfold Librarian.removeBook
      split
      · exact List.sublist_cons_self b rest
      · exact List.Sublist.cons₂ b ih

/-- Generic preservation: an invariant closed under `applyOp` holds after
any run. -/
theorem run_preserves (P : LibState → Prop)
    (hstep : ∀ s op, P s → P (applyOp s op)) :
    ∀ (ops : List Op) (s : LibState), P s → P (run s ops)
  | [], _, h => h
  | op :: ops, s, h =>
      run_preserves P hstep ops (applyOp s op) (hstep s op h)

/-- The book invariant of the spec: a book is checked out exactly when its
due date is set (non-zero). -/
def BooksInv (s : LibState) : Prop :=
  ∀ rb ∈ s.books, ((rb : Nat × Book).2.isAvailable = false ↔ rb.2.dueDate ≠ 0)

/-- Every single operation preserves the book invariant. -/
theorem booksInv_step (s : LibState) (op : Op) (h : BooksInv s) :
    BooksInv (applyOp s op) := by
  cases op with
  | addBook t a i =>
      intro rb hrb
      simp only [applyOp, List.mem_append, List.mem_singleton] at hrb
      rcases hrb with hrb | hrb
      · exact h rb hrb
      · subst hrb; simp [Book.make]
  | registerUser n id =>
      intro rb hrb
      exact h rb hrb
  | borrow ui bi now =>
      intro rb hrb
      simp only [applyOp] at hrb
      cases hu : s.users[ui]? with
      | none => rw [hu] at hrb; exact h rb hrb
      | some u =>
        cases hb : s.books[bi]? with
        | none => rw [hu, hb] at hrb; exact h rb hrb
        | some rb0 =>
          rw [hu, hb] at hrb
          simp only at hrb
          rcases List.mem_or_eq_of_mem_set hrb with hmem | heq
          · exact h rb hmem
          · subst heq
            unfold User.borrowBook
            split
            · simp [LOAN_PERIOD]
            · exact h rb0 (List.getElem?_mem hb)
  | ret ui bi now =>
      intro rb hrb
      simp only [applyOp] at hrb
      cases hu : s.users[ui]? with
      | none => rw [hu] at hrb; exact h rb hrb
      | some u =>
        cases hb : s.books[bi]? with
        | none => rw [hu, hb] at hrb; exact h rb hrb
        | some rb0 =>
          rw [hu, hb] at hrb
          simp only at hrb
          rcases List.mem_or_eq_of_mem_set hrb with hmem | heq
          · exact h rb hmem
          · subst heq
            unfold User.returnBook
            split
            · simp
            · exact h rb0 (List.getElem?_mem hb)
  | payFine ui amount =>
      intro rb hrb
      apply h
      revert hrb
      cases hu : s.users[ui]? <;> simp [applyOp, hu]

/-- The fine invariant: every registered user's balance is non-negative. -/
def FinesInv (s : LibState) : Prop := ∀ u ∈ s.users, 0 ≤ (u : User).fines

/-- Every single operation preserves non-negativity of fine balances. -/
theorem finesInv_step (s : LibState) (op : Op) (h : FinesInv s) :
    FinesInv (applyOp s op) := by
  cases op with
  | addBook t a i =>
      intro u hu
      exact h u hu
  | registerUser n id =>
      intro u hu
      simp only [applyOp, List.mem_append, List.mem_singleton] at hu
      rcases hu with hu | hu
      · exact h u hu
      · subst hu; simp [User.make]
  | borrow ui bi now =>
      intro u hu
      simp only [applyOp] at hu
      cases hus : s.users[ui]? with
      | none => rw [hus] at hu; exact h u hu
      | some u0 =>
        cases hb : s.books[bi]? with
        | none => rw [hus, hb] at hu; exact h u hu
        | some rb0 =>
          rw [hus, hb] at hu
          simp only at hu
          rcases List.mem_or_eq_of_mem_set hu with hmem | heq
          · exact h u hmem
          · subst heq
            have h0 : 0 ≤ u0.fines := h u0 (List.getElem?_mem hus)
            unfold User.borrowBook
            split <;> simpa using h0
  | ret ui bi now =>
      intro u hu
      simp only [applyOp] at hu
      cases hus : s.users[ui]? with
      | none => rw [hus] at hu; exact h u hu
      | some u0 =>
        cases hb : s.books[bi]? with
        | none => rw [hus, hb] at hu; exact h u hu
        | some rb0 =>
          rw [hus, hb] at hu
          simp only at hu
          rcases List.mem_or_eq_of_mem_set hu with hmem | heq
          · exact h u hmem
          · subst heq
            have h0 : 0 ≤ u0.fines := h u0 (List.getElem?_mem hus)
            unfold User.returnBook
            split
            · simpa using add_nonneg h0 (overdueFine_nonneg _ _)
            · simpa using h0
  | payFine ui amount =>
      intro u hu
      simp only [applyOp] at hu
      cases hus : s.users[ui]? with
      | none => rw [hus] at hu; exact h u hu
      | some u0 =>
        rw [hus] at hu
        simp only at hu
        rcases List.mem_or_eq_of_mem_set hu with hmem | heq
        · exact h u hmem
        · subst heq
          have h0 : 0 ≤ u0.fines := h u0 (List.getElem?_mem hus)
          unfold User.payFines
          split
          · next hle => simpa using sub_nonneg.mpr hle
          · simpa using h0

/-! ## Claims -/

/-- C1: in every state reachable from the empty library by the core
operations, every book's due date is set (non-zero) exactly when the book
is not available; a newly constructed book is available with due date 0. -/
theorem book_due_iff_unavailable (ops : List Op) :
    (∀ rb ∈ (run LibState.init ops).books,
        ((rb : Nat × Book).2.isAvailable = false ↔ rb.2.dueDate ≠ 0)) ∧
    (∀ t a i, (Book.make t a i).isAvailable = true ∧
        (Book.make t a i).dueDate = 0) := by
  refine ⟨?_, fun t a i => ⟨rfl, rfl⟩⟩
  have hinit : BooksInv LibState.init := by
    intro rb hrb
    simp [LibState.init] at hrb
  exact run_preserves BooksInv booksInv_step ops LibState.init hinit

/-- Witness for C1: a run that registers a user, adds a book and borrows it
at clock 100 yields a checked-out book with due date 105, satisfying the
invariant. -/
theorem book_due_iff_unavailable_witness :
    ((0, { Book.make "T" "A" "I1" with isAvailable := false, dueDate := 105 })
        ∈ (run LibState.init
            [Op.registerUser "Alice" "U1", Op.addBook "T" "A" "I1",
             Op.borrow 0 0 100]).books) ∧
    (({ Book.make "T" "A" "I1" with
          isAvailable := false, dueDate := 105 }.isAvailable = false) ↔
      ({ Book.make "T" "A" "I1" with
          isAvailable := false, dueDate := 105 }.dueDate ≠ 0)) := by
  have hmem : (0, { Book.make "T" "A" "I1" with
      isAvailable := false, dueDate := 105 })
      ∈ (run LibState.init
          [Op.registerUser "Alice" "U1", Op.addBook "T" "A" "I1",
           Op.borrow 0 0 100]).books := by decide
  exact ⟨hmem, (book_due_iff_unavailable
    [Op.registerUser "Alice" "U1", Op.addBook "T" "A" "I1",
     Op.borrow 0 0 100]).1 _ hmem⟩

/-- C8: in every state reachable from the empty library (so in particular
for a freshly registered user, whose balance starts at 0) by any sequence
of borrows, returns and payments with arbitrary rational amounts, every
user's fine balance is non-negative. -/
theorem fines_nonneg (ops : List Op) :
    ∀ u ∈ (run LibState.init ops).users, 0 ≤ (u : User).fines := by
  have hinit : FinesInv LibState.init := by
    intro u hu
    simp [LibState.init] at hu
  exact run_preserves FinesInv finesInv_step ops LibState.init hinit

/-- Witness for C8: borrow at 0, return 5 seconds late at 10 (fine 10),
then pay 4: the remaining balance 6 is non-negative. -/
theorem fines_nonneg_witness :
    ({ User.make "Alice" "U1" with fines := 6 }
        ∈ (run LibState.init
            [Op.registerUser "Alice" "U1", Op.addBook "T" "A" "I1",
             Op.borrow 0 0 0, Op.ret 0 0 10, Op.payFine 0 4]).users) ∧
    (0 : ℚ) ≤ ({ User.make "Alice" "U1" with fines := 6 } : User).fines := by
  have hmem : { User.make "Alice" "U1" with fines := 6 }
      ∈ (run LibState.init
          [Op.registerUser "Alice" "U1", Op.addBook "T" "A" "I1",
           Op.borrow 0 0 0, Op.ret 0 0 10, Op.payFine 0 4]).users := by
    norm_num [run, applyOp, LibState.init, User.make, Book.make,
      User.borrowBook, User.returnBook, User.payFines, overdueFine,
      LOAN_PERIOD, FINE_RATE, List.foldl]
  exact ⟨hmem, fines_nonneg
    [Op.registerUser "Alice" "U1", Op.addBook "T" "A" "I1",
     Op.borrow 0 0 0, Op.ret 0 0 10, Op.payFine 0 4] _ hmem⟩

/-- C2: borrowing an available book appends it to the user's borrowed list,
clears its availability, and stamps the due date to `now + LOAN_PERIOD`
where `LOAN_PERIOD` is exactly 5 seconds and `now` is the single clock
value read during the operation. -/
theorem borrow_available_effect (u : User) (ref : Nat) (b : Book) (now : Nat)
    (h : b.isAvailable = true) :
    u.borrowBook ref b now =
      ({ u with borrowedBooks := u.borrowedBooks ++ [ref] },
       { b with isAvailable := false, dueDate := now + LOAN_PERIOD },
       Result.ok) ∧ LOAN_PERIOD = 5 := by
  refine ⟨?_, rfl⟩
  simp [User.borrowBook, h]

/-- Witness for C2 at a concrete available book and clock value 100. -/
theorem borrow_available_effect_witness :
    (User.make "Alice" "U1").borrowBook 0 (Book.make "T" "A" "I1") 100 =
      ({ User.make "Alice" "U1" with borrowedBooks := [0] },
       { Book.make "T" "A" "I1" with isAvailable := false, dueDate := 105 },
       Result.ok) := by
  have h := borrow_available_effect (User.make "Alice" "U1") 0
    (Book.make "T" "A" "I1") 100 (by decide)
  simpa [User.make, Book.make, LOAN_PERIOD] using h.1

/-- C5: borrowing an unavailable book reports `BookUnavailable` and mutates
nothing: the user and book are returned unchanged, and the whole-system
step on the library state is the identity, so every other user and book is
untouched as well. -/
theorem borrow_unavailable_noop (u : User) (ref : Nat) (b : Book) (now : Nat)
    (h : b.isAvailable = false)
    (s : LibState) (ui bi : Nat)
    (hu : s.users[ui]? = some u) (hb : s.books[bi]? = some (ref, b)) :
    u.borrowBook ref b now = (u, b, Result.bookUnavailable) ∧
    applyOp s (Op.borrow ui bi now) = s := by
  have hbb : u.borrowBook ref b now = (u, b, Result.bookUnavailable) := by
    simp [User.borrowBook, h]
  refine ⟨hbb, ?_⟩
  simp only [applyOp, hu, hb, hbb]
  have h1 : s.users.set ui u = s.users := set_getElem_eq_self _ _ _ hu
  have h2 : s.books.set bi (ref, b) = s.books := set_getElem_eq_self _ _ _ hb
  cases s
  simp_all

/-- Witness for C5: a one-user, one-checked-out-book state where a borrow
attempt changes nothing. -/
theorem borrow_unavailable_noop_witness :
    ((User.make "Alice" "U1").borrowBook 0
        { Book.make "T" "A" "I1" with isAvailable := false, dueDate := 42 } 7 =
      (User.make "Alice" "U1",
       { Book.make "T" "A" "I1" with isAvailable := false, dueDate := 42 },
       Result.bookUnavailable)) ∧
    applyOp
      { nextRef := 1,
        books := [(0, { Book.make "T" "A" "I1" with
                          isAvailable := false, dueDate := 42 })],
        users := [User.make "Alice" "U1"] }
      (Op.borrow 0 0 7) =
      { nextRef := 1,
        books := [(0, { Book.make "T" "A" "I1" with
                          isAvailable := false, dueDate := 42 })],
        users := [User.make "Alice" "U1"] } :=
  borrow_unavailable_noop (User.make "Alice" "U1") 0
    { Book.make "T" "A" "I1" with isAvailable := false, dueDate := 42 } 7
    (by decide) _ 0 0 (by decide) (by decide)

/-- C6: returning a book that is not in the user's borrowed list (membership
by reference identity) reports `NotBorrowedByUser` and leaves the user's
borrowed list and fine balance and the book's availability and due date
exactly as before, even if the book is overdue. -/
theorem return_not_borrowed_noop (u : User) (ref : Nat) (b : Book) (now : Nat)
    (h : ref ∉ u.borrowedBooks) :
    u.returnBook ref b now = (u, b, Result.notBorrowedByUser) := by
  simp [User.returnBook, h]

/-- Witness for C6: an overdue book (due 3, clock 50) not borrowed by the
user is rejected with no mutation. -/
theorem return_not_borrowed_noop_witness :
    (User.make "Alice" "U1").returnBook 4
      { Book.make "T" "A" "I1" with isAvailable := false, dueDate := 3 } 50 =
      (User.make "Alice" "U1",
       { Book.make "T" "A" "I1" with isAvailable := false, dueDate := 3 },
       Result.notBorrowedByUser) :=
  return_not_borrowed_noop (User.make "Alice" "U1") 4
    { Book.make "T" "A" "I1" with isAvailable := false, dueDate := 3 } 50
    (by decide)

/-- C7: a payment strictly above the fine balance is rejected with
`OverpaymentRejected` and no mutation; paying exactly the balance succeeds
and leaves the balance at zero. -/
theorem payFines_boundary (u : User) (a : ℚ) :
    (u.fines < a → u.payFines a = (u, Result.overpaymentRejected)) ∧
    u.payFines u.fines = ({ u with fines := 0 }, Result.ok) := by
  constructor
  · intro h
    simp [User.payFines, not_le.mpr h]
  · simp [User.payFines]

/-- Witness for C7: balance 3, overpayment 301/100 (= 3.01) rejected;
paying exactly 3 zeroes the balance. -/
theorem payFines_boundary_witness :
    ({ User.make "Alice" "U1" with fines := 3 }.payFines (301/100) =
      ({ User.make "Alice" "U1" with fines := 3 },
       Result.overpaymentRejected)) ∧
    ({ User.make "Alice" "U1" with fines := 3 }.payFines 3 =
      ({ User.make "Alice" "U1" with fines := 0 }, Result.ok)) := by
  have h := payFines_boundary { User.make "Alice" "U1" with fines := 3 } (301/100)
  exact ⟨h.1 (by norm_num), h.2⟩

/-- C10: a zero or negative amount not exceeding the balance is accepted:
the balance becomes `fines - amount`, so a strictly negative amount
strictly increases the balance. -/
theorem payFines_negative_accepted (u : User) (a : ℚ)
    (h1 : a ≤ u.fines) (h2 : a ≤ 0) :
    u.payFines a = ({ u with fines := u.fines - a }, Result.ok) ∧
    (a < 0 → u.fines < (u.payFines a).1.fines) := by
  have hp : u.payFines a = ({ u with fines := u.fines - a }, Result.ok) := by
    simp [User.payFines, h1]
  refine ⟨hp, fun hneg => ?_⟩
  rw [hp]
  simpa using sub_lt_sub_left hneg u.fines

/-- Witness for C10: balance 3, "payment" of -2 accepted and balance grows
to 5. -/
theorem payFines_negative_accepted_witness :
    ({ User.make "Alice" "U1" with fines := 3 }.payFines (-2) =
      ({ User.make "Alice" "U1" with fines := 5 }, Result.ok)) ∧
    (3 : ℚ) < ({ User.make "Alice" "U1" with fines := 3 }.payFines (-2)).1.fines := by
  have h := payFines_negative_accepted
    { User.make "Alice" "U1" with fines := 3 } (-2) (by norm_num) (by norm_num)
  refine ⟨?_, h.2 (by norm_num)⟩
  rw [h.1]
  norm_num

/-- C3: returning a borrowed book adds exactly
`max(0, now - dueDate) * FINE_RATE` to the fine balance (`FINE_RATE = 2`
dollars per second, so exactly 20 for 10 seconds overdue, as the witness
shows), adds nothing when `now` does not exceed the due date (including
`now = dueDate`), uses the single clock value `now` read once during the
operation, and computes the fine from the due date still stored before it
is cleared to `0` in the resulting book. -/
theorem return_borrowed_fine (u : User) (ref : Nat) (b : Book) (now : Nat)
    (h : ref ∈ u.borrowedBooks) :
    u.returnBook ref b now =
      ({ u with borrowedBooks := u.borrowedBooks.erase ref,
                fines := u.fines + ((now - b.dueDate : Nat) : ℚ) * FINE_RATE },
       { b with isAvailable := true, dueDate := 0 },
       Result.ok) ∧
    FINE_RATE = 2 ∧
    (now ≤ b.dueDate → (u.returnBook ref b now).1.fines = u.fines) := by
  have hret : u.returnBook ref b now =
      ({ u with borrowedBooks := u.borrowedBooks.erase ref,
                fines := u.fines + ((now - b.dueDate : Nat) : ℚ) * FINE_RATE },
       { b with isAvailable := true, dueDate := 0 },
       Result.ok) := by
    simp [User.returnBook, h, overdueFine_eq]
  refine ⟨hret, rfl, fun hle => ?_⟩
  rw [hret]
  simp [Nat.sub_eq_zero_of_le hle]

/-- Witness for C3: a book 10 seconds overdue (due 5, clock 15) raises the
fine balance by exactly 20. -/
theorem return_borrowed_fine_witness :
    { User.make "Alice" "U1" with borrowedBooks := [0] }.returnBook 0
      { Book.make "T" "A" "I1" with isAvailable := false, dueDate := 5 } 15 =
      ({ User.make "Alice" "U1" with borrowedBooks := [], fines := 20 },
       { Book.make "T" "A" "I1" with isAvailable := true, dueDate := 0 },
       Result.ok) := by
  have h := return_borrowed_fine
    { User.make "Alice" "U1" with borrowedBooks := [0] } 0
    { Book.make "T" "A" "I1" with isAvailable := false, dueDate := 5 } 15
    (by decide)
  rw [h.1]
  norm_num [User.make, Book.make, FINE_RATE, List.erase]

/-- C4: borrowing an available book and returning it no later than the due
timestamp leaves the book available with its due date cleared and the
user's fine balance equal to what it was before the borrow. -/
theorem borrow_return_round_trip (u : User) (ref : Nat) (b : Book)
    (t0 t1 : Nat) (hav : b.isAvailable = true)
    (hdue : t1 ≤ ((u.borrowBook ref b t0).2.1).dueDate) :
    (((u.borrowBook ref b t0).1.returnBook ref
        (u.borrowBook ref b t0).2.1 t1).2.1).isAvailable = true ∧
    (((u.borrowBook ref b t0).1.returnBook ref
        (u.borrowBook ref b t0).2.1 t1).2.1).dueDate = 0 ∧
    (((u.borrowBook ref b t0).1.returnBook ref
        (u.borrowBook ref b t0).2.1 t1).1).fines = u.fines := by
  have hb : u.borrowBook ref b t0 =
      ({ u with borrowedBooks := u.borrowedBooks ++ [ref] },
       { b with isAvailable := false, dueDate := t0 + LOAN_PERIOD },
       Result.ok) := by
    simp [User.borrowBook, hav]
  rw [hb] at hdue ⊢
  simp only at hdue
  have hmem : ref ∈ u.borrowedBooks ++ [ref] := by simp
  have hfine : overdueFine t1 (t0 + LOAN_PERIOD) = 0 := by
    unfold overdueFine
    rw [if_neg (Nat.not_lt.mpr hdue)]
  simp [User.returnBook, hmem, hfine]

/-- Witness for C4: borrow at clock 100, return at clock 105 (exactly the
due timestamp): the book is free again and no fine accrued. -/
theorem borrow_return_round_trip_witness :
    (100 : Nat) + LOAN_PERIOD = 105 ∧
    ((((User.make "Alice" "U1").borrowBook 0 (Book.make "T" "A" "I1") 100).1.returnBook 0
        ((User.make "Alice" "U1").borrowBook 0 (Book.make "T" "A" "I1") 100).2.1
        105).2.1).isAvailable = true ∧
    ((((User.make "Alice" "U1").borrowBook 0 (Book.make "T" "A" "I1") 100).1.returnBook 0
        ((User.make "Alice" "U1").borrowBook 0 (Book.make "T" "A" "I1") 100).2.1
        105).2.1).dueDate = 0 ∧
    ((((User.make "Alice" "U1").borrowBook 0 (Book.make "T" "A" "I1") 100).1.returnBook 0
        ((User.make "Alice" "U1").borrowBook 0 (Book.make "T" "A" "I1") 100).2.1
        105).1).fines = (User.make "Alice" "U1").fines := by
  have h := borrow_return_round_trip (User.make "Alice" "U1") 0
    (Book.make "T" "A" "I1") 100 105 (by decide) (by decide)
  exact ⟨by decide, h.1, h.2.1, h.2.2⟩

/-- Counterexample to C9 as stated: from the empty inventory, two `addBook`
calls with the same ISBN "X" reach a state whose identifiers are not
unique — `addBook` performs no duplicate check. -/
theorem duplicate_ISBN_reachable :
    ¬ ((runInv [] [InvOp.add "T1" "A1" "X", InvOp.add "T2" "A2" "X"]).map
        Book.ISBN).Nodup := by
  decide

/-- C9 (amended): `removeBook` always preserves uniqueness of identifiers,
and a sequence of `addBook`/`removeBook` operations keeps identifiers
unique provided each `addBook` uses an ISBN not present in the inventory
at the moment it runs; `addBook` itself never checks for duplicates. -/
theorem fresh_adds_unique_ISBN (inv : List Book) (ops : List InvOp)
    (hinv : (inv.map Book.ISBN).Nodup) (hfresh : FreshAdds inv ops) :
    ((runInv inv ops).map Book.ISBN).Nodup := by
  induction ops generalizing inv with
  | nil => exact hinv
  | cons op rest ih =>
      simp only [FreshAdds] at hfresh
      obtain ⟨hop, hrest⟩ := hfresh
      refine ih (applyInvOp inv op) ?_ hrest
      cases op with
      | add t a i =>
          simp only [opFresh] at hop
          simp only [applyInvOp, Librarian.addBook, List.map_append]
          rw [List.nodup_append]
          refine ⟨hinv, by simp, ?_⟩
          intro x hx hx1
          simp [Book.make] at hx1
          exact hop (hx1 ▸ hx)
      | remove i =>
          exact List.Nodup.sublist
            (List.Sublist.map Book.ISBN (removeBook_sublist inv i)) hinv

/-- Witness for the amended C9: adding "X" then "Y" (both fresh) and
removing "X" leaves the unique inventory ["Y"]. -/
theorem fresh_adds_unique_ISBN_witness :
    (([] : List Book).map Book.ISBN).Nodup ∧
    FreshAdds [] [InvOp.add "T1" "A1" "X", InvOp.add "T2" "A2" "Y",
      InvOp.remove "X"] ∧
    ((runInv [] [InvOp.add "T1" "A1" "X", InvOp.add "T2" "A2" "Y",
        InvOp.remove "X"]).map Book.ISBN).Nodup :=
  ⟨by decide, by decide,
   fresh_adds_unique_ISBN [] _ (by decide) (by decide)⟩

end LibrarySystem
